import Mathlib

/-!
Verification of the Eaton xComfort Bridge connection engine.

The development shallowly embeds the TypeScript sources:
* `src/lib/XComfortProtocol.ts` — protocol constants and the `Authenticator`
  state machine;
* `src/lib/connection/Bridge.ts` — the monolithic `XComfortBridge` revision
  (its own `nextMc`, `dimDevice`, `retryLoginOrFail`, ACK-reply rule);
* the `ConnectionManager` facade revision (`nextMc`, `sendWithRetry`,
  retry configuration, semaphore discipline);
* the modular facade (`scheduleReconnect`, `dimDevice`, the
  `onAuthenticated` callback, ACK-reply rule);
* `src/lib/crypto/Encryption.ts` — AES-CBC zero-padding encrypt/decrypt;
* `src/lib/messaging/MessageHandler.ts` — per-device update coalescing.

Strings and buffers are represented as lists of byte values (`List Nat`,
each `< 256`); JavaScript numbers appearing in dim commands are represented
as rationals (`ℚ`), and `Math.round` as `⌊x + 1/2⌋` (which agrees with
JavaScript's half-up rounding on all inputs).  The AES-256 block cipher and
the Base64 codec invoked through Node's `crypto`/`Buffer` libraries are not
repository code: the block cipher is abstracted as a pair of functions with
an inverse hypothesis, while Base64 (fully specified) is implemented
concretely, including Node's lenient decoder that skips non-alphabet bytes.
-/

namespace XComfort

/-! ## Protocol constants (`XComfortProtocol.ts` `MESSAGE_TYPES`,
`Bridge.ts` `MessageType`, `lib/types.ts` `MessageType`) -/

namespace MESSAGE_TYPES

def NACK : Nat := 0
def ACK : Nat := 1
def HEARTBEAT : Nat := 2
def PING : Nat := 3
def CONNECTION_START : Nat := 10
def CONNECTION_CONFIRM : Nat := 11
def SC_INIT_RESPONSE : Nat := 12
def CONNECTION_DECLINED : Nat := 13
def SC_INIT_REQUEST : Nat := 14
def PUBLIC_KEY_RESPONSE : Nat := 15
def SECRET_EXCHANGE : Nat := 16
def SECRET_EXCHANGE_ACK : Nat := 17
def LOGIN_REQUEST : Nat := 30
def LOGIN_OK : Nat := 31
def LOGIN_RESPONSE : Nat := 32
def TOKEN_APPLY : Nat := 33
def TOKEN_APPLY_ACK : Nat := 34
def TOKEN_RENEW : Nat := 37
def TOKEN_RENEW_RESPONSE : Nat := 38
def REQUEST_DEVICES : Nat := 240
def REQUEST_ROOMS : Nat := 242
def DEVICE_DIM : Nat := 280
def DEVICE_SWITCH : Nat := 281
def SET_ALL_DATA : Nat := 300
def SET_HOME_DATA : Nat := 303
def STATE_UPDATE : Nat := 310
def ERROR_INFO : Nat := 295
def SET_BRIDGE_STATE : Nat := 364

end MESSAGE_TYPES

/-- `PROTOCOL_CONFIG.TIMEOUTS.RECONNECT_DELAY` (5000 ms). -/
def RECONNECT_DELAY : Nat := 5000

/-- `PROTOCOL_CONFIG.LIMITS.DIM_MIN`. -/
def DIM_MIN : Nat := 1

/-- `PROTOCOL_CONFIG.LIMITS.DIM_MAX`. -/
def DIM_MAX : Nat := 99

/-- `WS_CLOSE_CODES.ABNORMAL_CLOSURE`. -/
def ABNORMAL_CLOSURE : Nat := 1006

/-! ## Message counters (claim C2)

Two `nextMc` implementations exist.  `ConnectionManager.nextMc` is
`return ++this.mc;` — a bare pre-increment with no wrap.
`XComfortBridge.nextMc` in `Bridge.ts` post-increments `mcCounter`
(initialised to 1) and resets the *stored* counter to 1 once it exceeds
65535.  Each is modelled as a state transformer `mc ↦ (new state, value)`. -/

namespace ConnectionManager

/-- `ConnectionManager.nextMc`: `return ++this.mc;` — the stored counter and
the returned value are both the old counter plus one. -/
def nextMc (mc : Nat) : Nat × Nat := (mc + 1, mc + 1)

/-- Stored counter after `n` calls to `nextMc`, starting from the initial
`mc = 0` set by the field initialiser / `resetMc()`. -/
def mcAfter : Nat → Nat
  | 0 => 0
  | n + 1 => (nextMc (mcAfter n)).1

/-- Value returned by call number `n + 1` (0-indexed `n`). -/
def mcValue (n : Nat) : Nat := (nextMc (mcAfter n)).2

end ConnectionManager

namespace BridgeTs

/-- `XComfortBridge.nextMc` from `Bridge.ts`:
`const val = this.mcCounter++; if (this.mcCounter > 65535) this.mcCounter = 1;
return val;`. -/
def nextMc (mcCounter : Nat) : Nat × Nat :=
  let val := mcCounter
  let next := mcCounter + 1
  (if next > 65535 then 1 else next, val)

/-- Stored counter before call number `n + 1`; `connect()` sets
`mcCounter = 1`. -/
def mcAfter : Nat → Nat
  | 0 => 1
  | n + 1 => (nextMc (mcAfter n)).1

/-- Value returned by call number `n + 1` (0-indexed `n`). -/
def mcValue (n : Nat) : Nat := (nextMc (mcAfter n)).2

end BridgeTs

/-! ## Reconnect scheduling (claim C9) — modular facade
`scheduleReconnect` -/

/-- Base reconnect delay selected by `scheduleReconnect`:
`this.lastCloseCode === 1006 ? 500 : PROTOCOL_CONFIG.TIMEOUTS.RECONNECT_DELAY`. -/
def reconnectBaseDelay (lastCloseCode : Nat) : Nat :=
  if lastCloseCode = ABNORMAL_CLOSURE then 500 else RECONNECT_DELAY

/-- Delay computed by `scheduleReconnect` for attempt number `attempt`
(the value of `reconnectAttempt` after the `this.reconnectAttempt++`):
`Math.min(baseDelay * Math.pow(2, Math.max(0, attempt - 1)), 60000)`.
`Nat` subtraction already truncates at zero, matching `Math.max(0, ·)`. -/
def reconnectDelay (lastCloseCode attempt : Nat) : Nat :=
  min (reconnectBaseDelay lastCloseCode * 2 ^ (attempt - 1)) 60000

/-- One invocation of `scheduleReconnect` as a state transformer on the
`reconnectAttempt` counter: increments the counter, then computes the delay
for the incremented value.  A fully successful reconnect runs
`this.reconnectAttempt = 0`. -/
def scheduleReconnect (lastCloseCode reconnectAttempt : Nat) : Nat × Nat :=
  let attempt := reconnectAttempt + 1
  (attempt, reconnectDelay lastCloseCode attempt)

/-! ## Inbound ACK replies (claim C10)

The modular facade's `handleEncryptedMessage` ACKs every message carrying a
non-negative `mc`; `Bridge.ts`'s `handleProtocolMessage` additionally
excludes inbound `ACK`-type messages.  A message is modelled by its
`type_int`, optional `mc` and optional `ref`; the model returns the list of
ACK frames (`type_int = 1` with optional `ref`) emitted by the ACK-reply
section of each handler. -/

/-- Shape of an inbound protocol frame, as far as the ACK-reply rules
inspect it. -/
structure InboundMsg where
  type_int : Nat
  mc : Option Int := none
  ref : Option Int := none
deriving DecidableEq, Repr

/-- An outbound ACK frame: `type_int = MESSAGE_TYPES.ACK` with an optional
`ref` field. -/
structure AckFrame where
  ref : Option Int
deriving DecidableEq, Repr

/-- ACK frames sent by the modular facade's `handleEncryptedMessage`:
`if (msg.mc !== undefined && msg.mc >= 0) { send {type_int: ACK, ref: msg.mc} }
else if (msg.type_int === PING) { send ACK with ref copied when present }
else if (msg.type_int === HEARTBEAT) { send ACK with ref = msg.mc ?? -1 }`. -/
def facadeAckReplies (m : InboundMsg) : List AckFrame :=
  match m.mc with
  | some mcv =>
      if mcv ≥ 0 then [⟨some mcv⟩]
      else if m.type_int = MESSAGE_TYPES.PING then [⟨m.ref⟩]
      else if m.type_int = MESSAGE_TYPES.HEARTBEAT then [⟨some (-1)⟩]
      else []
  | none =>
      if m.type_int = MESSAGE_TYPES.PING then [⟨m.ref⟩]
      else if m.type_int = MESSAGE_TYPES.HEARTBEAT then [⟨some (-1)⟩]
      else []

/-- ACK frames sent by `Bridge.ts`'s `handleProtocolMessage`:
`if (msg.mc !== undefined && msg.mc >= 0 && type !== MessageType.ACK)`
then `sendMessage(ACK, {}, msg.mc)`, which emits a frame whose `ref` is
`msg.mc` (the `mc`/`payload` fields being deleted for ACKs). -/
def bridgeTsAckReplies (m : InboundMsg) : List AckFrame :=
  match m.mc with
  | some mcv =>
      if mcv ≥ 0 ∧ m.type_int ≠ MESSAGE_TYPES.ACK then [⟨some mcv⟩] else []
  | none => []

/-! ## Dimming (claim C8)

Two `dimDevice` implementations exist.  JavaScript numbers are modelled as
rationals; `Math.round` as `jsRound`. -/

/-- JavaScript `Math.round`: round half toward +∞, i.e. `⌊x + 1/2⌋`. -/
def jsRound (q : ℚ) : ℤ := ⌊q + 1 / 2⌋

/-- The command transmitted by a `dimDevice` call: either a delegation to
`switchDevice(id, false)` or a `DEVICE_DIM` frame carrying `dimmvalue`. -/
inductive DimCommand where
  | switchOff : DimCommand
  | dim (dimmvalue : ℚ) : DimCommand
deriving DecidableEq, Repr

/-- `Bridge.ts` `dimDevice`:
`if (value <= 0) { switchDevice(false); return; }
const scaled = value <= 1 ? Math.round(value * 99) : Math.round(value);
const dimVal = Math.max(1, Math.min(99, scaled));` then sends
`{ dimmvalue: dimVal }`. -/
def bridgeTsDimDevice (value : ℚ) : DimCommand :=
  if value ≤ 0 then .switchOff
  else
    let scaled : ℤ := if value ≤ 1 then jsRound (value * 99) else jsRound value
    .dim ((max 1 (min 99 scaled) : ℤ) : ℚ)

/-- The modular facade's `dimDevice` (inside the debouncer callback):
`let targetVal = dimmValue;
if (dimmValue <= 1 && dimmValue > 0) targetVal = Math.round(dimmValue * 99);
if (targetVal === 0) return switchDevice(false);
targetVal = Math.max(DIM_MIN, Math.min(DIM_MAX, targetVal));` then sends
`{ dimmvalue: targetVal }`.  Values `> 1` are not rounded here, and a
negative input bypasses the `targetVal === 0` check. -/
def facadeDimDevice (dimmValue : ℚ) : DimCommand :=
  let targetVal : ℚ :=
    if dimmValue ≤ 1 ∧ 0 < dimmValue then ((jsRound (dimmValue * 99) : ℤ) : ℚ)
    else dimmValue
  if targetVal = 0 then .switchOff
  else .dim (max (DIM_MIN : ℚ) (min (DIM_MAX : ℚ) targetVal))

/-! ## Authenticator state machine (claim C1)

`Authenticator` from `XComfortProtocol.ts` (second compilation unit of that
file), paired with the modular facade's `onAuthenticated` callback.  Strings
are Lean `String`s; a message payload is an association list of string
fields (`getStringField` accepts only non-empty string values, as in the
source).  The `getMc` callback is `() => this.connectionManager.nextMc()`,
so the `ConnectionManager` counter is threaded through the state.
`Encryption.generateSalt` (randomness) and `Encryption.calculateAuthHash`
(SHA-256, a Node `crypto` primitive) are abstracted into a `CryptoEnv`. -/

/-- The `AuthState` union type from `lib/types.ts`. -/
inductive AuthState where
  | idle
  | awaiting_public_key
  | awaiting_secret_ack
  | awaiting_login_response
  | awaiting_token_apply
  | awaiting_token_renew
  | authenticated
deriving DecidableEq, Repr

/-- An inbound decrypted frame as the `Authenticator` sees it: a type code
and an optional payload object (absent / non-object payloads collapse to
`none`, matching `getPayloadObject`). -/
structure AuthInMsg where
  type_int : Nat
  payload : Option (List (String × String)) := none
deriving DecidableEq, Repr

/-- An outbound frame produced through `sendEncrypted`: type code, the
`getMc()` counter value, and the payload fields. -/
structure OutMsg where
  type_int : Nat
  mc : Nat
  payload : List (String × String) := []
deriving DecidableEq, Repr

/-- `Authenticator.getStringField`: returns the field only when it is a
string of positive length. -/
def getStringField (payload : Option (List (String × String))) (key : String) :
    Option String :=
  match payload with
  | none => none
  | some p =>
      match p.lookup key with
      | some v => if v.length > 0 then some v else none
      | none => none

/-- Abstraction of the Node `crypto` primitives used by the login step:
`genSalt` models the random output of `Encryption.generateSalt`, and
`authHash deviceId authKey salt` models
`Encryption.calculateAuthHash(deviceId, authKey, salt)` (double SHA-256). -/
structure CryptoEnv where
  genSalt : String
  authHash : String → String → String → String

/-- Mutable fields of the `Authenticator`, plus the `ConnectionManager`
message counter backing its `getMc` callback. -/
structure AuthenticatorState where
  authKey : String
  deviceId : Option String
  connectionId : Option String
  publicKey : Option String
  token : Option String
  state : AuthState
  isRenewing : Bool
  mc : Nat
deriving DecidableEq, Repr

/-- Constructor / `reset()` state of the `Authenticator` with counter `mc`
(the facade's `connect()` calls `authenticator.reset()` and
`connectionManager.resetMc()` together). -/
def initialAuthState (authKey : String) (mc : Nat) : AuthenticatorState :=
  { authKey := authKey
    deviceId := none
    connectionId := none
    publicKey := none
    token := none
    state := .idle
    isRenewing := false
    mc := mc }

/-- Result of one `handleEncryptedMessage` call: the new state, the frames
passed to `sendEncrypted` (in order), whether the message was handled, and
whether `onAuthenticated` was invoked. -/
structure AuthStepResult where
  st : AuthenticatorState
  sent : List OutMsg
  handled : Bool
  authFired : Bool
deriving Repr

/-- `Authenticator.handleEncryptedMessage`, branch by branch. -/
def handleEncryptedMessage (env : CryptoEnv) (s : AuthenticatorState)
    (m : AuthInMsg) : AuthStepResult :=
  if m.type_int = MESSAGE_TYPES.SECRET_EXCHANGE_ACK then
    match s.deviceId with
    | none => ⟨s, [], true, false⟩
    | some deviceId =>
        let salt := env.genSalt
        let password := env.authHash deviceId s.authKey salt
        let (mc1, v1) := ConnectionManager.nextMc s.mc
        let loginMsg : OutMsg :=
          ⟨MESSAGE_TYPES.LOGIN_REQUEST, v1,
            [("username", "default"), ("password", password), ("salt", salt)]⟩
        ⟨{ s with mc := mc1, state := .awaiting_login_response },
          [loginMsg], true, false⟩
  else if m.type_int = MESSAGE_TYPES.LOGIN_RESPONSE then
    match getStringField m.payload "token" with
    | none => ⟨s, [], true, false⟩
    | some token =>
        let (mc1, v1) := ConnectionManager.nextMc s.mc
        let applyTokenMsg : OutMsg :=
          ⟨MESSAGE_TYPES.TOKEN_APPLY, v1, [("token", token)]⟩
        ⟨{ s with token := some token, mc := mc1, state := .awaiting_token_apply },
          [applyTokenMsg], true, false⟩
  else if m.type_int = MESSAGE_TYPES.TOKEN_APPLY_ACK then
    if ¬s.isRenewing then
      match s.token with
      | none => ⟨s, [], true, false⟩
      | some token =>
          let (mc1, v1) := ConnectionManager.nextMc s.mc
          let renewTokenMsg : OutMsg :=
            ⟨MESSAGE_TYPES.TOKEN_RENEW, v1, [("token", token)]⟩
          ⟨{ s with isRenewing := true, mc := mc1, state := .awaiting_token_renew },
            [renewTokenMsg], true, false⟩
    else
      ⟨{ s with state := .authenticated, isRenewing := false }, [], true, true⟩
  else if m.type_int = MESSAGE_TYPES.TOKEN_RENEW_RESPONSE then
    match getStringField m.payload "token" with
    | none => ⟨s, [], true, false⟩
    | some token =>
        let (mc1, v1) := ConnectionManager.nextMc s.mc
        let applyNewTokenMsg : OutMsg :=
          ⟨MESSAGE_TYPES.TOKEN_APPLY, v1, [("token", token)]⟩
        ⟨{ s with token := some token, mc := mc1 },
          [applyNewTokenMsg], true, false⟩
  else
    ⟨s, [], false, false⟩

/-- The modular facade's `onAuthenticated` callback body: requests the
device list (240), the room list (242) and sends an initial heartbeat (2),
each with a fresh `nextMc()` and an empty payload object (it then starts
the periodic heartbeat and the watchdog, which emit no immediate frame). -/
def onAuthenticatedSends (mc : Nat) : Nat × List OutMsg :=
  let (mc1, v1) := ConnectionManager.nextMc mc
  let (mc2, v2) := ConnectionManager.nextMc mc1
  let (mc3, v3) := ConnectionManager.nextMc mc2
  (mc3,
    [⟨MESSAGE_TYPES.REQUEST_DEVICES, v1, []⟩,
      ⟨MESSAGE_TYPES.REQUEST_ROOMS, v2, []⟩,
      ⟨MESSAGE_TYPES.HEARTBEAT, v3, []⟩])

/-- Drive a list of inbound decrypted frames through
`Authenticator.handleEncryptedMessage`; whenever `onAuthenticated` fires,
append the facade's sends.  Returns the final state, all frames passed to
`sendEncrypted` in order, and how many times `onAuthenticated` fired. -/
def facadeProcessEncrypted (env : CryptoEnv) (s : AuthenticatorState) :
    List AuthInMsg → AuthenticatorState × List OutMsg × Nat
  | [] => (s, [], 0)
  | m :: rest =>
      let r := handleEncryptedMessage env s m
      let afterCallback :=
        if r.authFired then
          let (mc2, sends) := onAuthenticatedSends r.st.mc
          ({ r.st with mc := mc2 }, sends, 1)
        else (r.st, [], 0)
      let (sfin, out, fired) :=
        facadeProcessEncrypted env afterCallback.1 rest
      (sfin, r.sent ++ afterCallback.2.1 ++ out, afterCallback.2.2 + fired)

/-! ## Reliable send with retry (claims C4 and C5)

`ConnectionManager.sendWithRetry`.  A run is driven by the list of outcomes
of successive send attempts.  Each attempt either finds the connection
already lost (`isConnected()` false — no `sendEncrypted` call), fails to
send, or sends and then receives an ACK, a NACK, or an ACK timeout.  NACK,
timeout and send failure all route into `handleFailure`, which retries
after `retryDelay` while `retries < maxRetries` and otherwise rejects.
`cleanup()` — which releases the concurrency-1 transmit semaphore permit
acquired before the first attempt — runs on every terminal path and on no
retry path. -/

/-- `RetryConfig` from the `ConnectionManager` module. -/
structure RetryConfig where
  maxRetries : Nat
  ackTimeout : Nat
  retryDelay : Nat
deriving DecidableEq, Repr

/-- `DEFAULT_RETRY_CONFIG`: up to 3 additional attempts, 5 s ACK timeout,
500 ms between retries. -/
def DEFAULT_RETRY_CONFIG : RetryConfig :=
  { maxRetries := 3, ackTimeout := 5000, retryDelay := 500 }

/-- Outcome of a single send attempt inside `sendWithRetry`. -/
inductive AttemptOutcome where
  | connLost
  | sendFail
  | ack
  | nack
  | ackTimeout
deriving DecidableEq, Repr

/-- Terminal result of a `sendWithRetry` run. -/
inductive RetryResult where
  | resolved (value : Bool)
  | rejected
deriving DecidableEq, Repr

/-- Observable trace of a finished `sendWithRetry` run: its result, the
number of `sendEncrypted` calls made, and the number of times the semaphore
permit was released. -/
structure RetryTrace where
  result : RetryResult
  sendCalls : Nat
  releases : Nat
deriving DecidableEq, Repr

/-- One step of `sendAttempt`/`handleFailure` with `retries` failures
recorded so far; consumes one outcome per attempt.  Returns `none` when the
outcome supply is exhausted with the run still pending. -/
def sendWithRetryGo (cfg : RetryConfig) : Nat → List AttemptOutcome →
    Option RetryTrace
  | _, [] => none
  | retries, o :: rest =>
      match o with
      | .connLost => some ⟨.rejected, 0, 1⟩
      | .ack => some ⟨.resolved true, 1, 1⟩
      | .sendFail | .nack | .ackTimeout =>
          if retries < cfg.maxRetries then
            (sendWithRetryGo cfg (retries + 1) rest).map fun t =>
              ⟨t.result, t.sendCalls + 1, t.releases⟩
          else
            some ⟨.rejected, 1, 1⟩

/-- `sendWithRetry`: acquire the semaphore, then run the first attempt with
`retries = 0`. -/
def sendWithRetry (cfg : RetryConfig) (outcomes : List AttemptOutcome) :
    Option RetryTrace :=
  sendWithRetryGo cfg 0 outcomes

/-- An outcome that routes into `handleFailure`: NACK, ACK timeout, or a
failed `sendEncrypted`. -/
def isFailureOutcome (o : AttemptOutcome) : Prop :=
  o = .nack ∨ o = .ackTimeout ∨ o = .sendFail

instance (o : AttemptOutcome) : Decidable (isFailureOutcome o) := by
  unfold isFailureOutcome; infer_instance

/-! ## Login retry policy (claim C6) — `Bridge.ts` `retryLoginOrFail` -/

/-- Observable effect of one `retryLoginOrFail` call: either a new `login()`
is scheduled, or the state is forced to `DISCONNECTED`, `auth_failed` is
emitted and `disconnect()` runs. -/
structure LoginFailOutcome where
  schedulesLogin : Bool
  emitsAuthFailed : Bool
  disconnects : Bool
deriving DecidableEq, Repr

/-- `Bridge.ts` `retryLoginOrFail` as a transformer on `loginAttempts`
(reset to 0 by `connect()`): `this.loginAttempts += 1;
if (this.loginAttempts > 2) { emit auth_failed; disconnect; return; }
setTimeout(() => this.login(), 300);`. -/
def retryLoginOrFail (loginAttempts : Nat) : Nat × LoginFailOutcome :=
  let attempts := loginAttempts + 1
  if attempts > 2 then
    (attempts, ⟨false, true, true⟩)
  else
    (attempts, ⟨true, false, false⟩)

/-- Outcomes of `n` successive no-token login completions starting from
`loginAttempts = 0`, oldest first. -/
def loginFailOutcomes : Nat → Nat × List LoginFailOutcome
  | 0 => (0, [])
  | n + 1 =>
      let (a, outs) := loginFailOutcomes n
      let (a2, o) := retryLoginOrFail a
      (a2, outs ++ [o])

/-! ## Device-update coalescing (claim C7)

`MessageHandler.enqueueDeviceUpdate` for a single device id.  A
`DeviceStateUpdate` is a record of optional fields (a `none` field models a
key absent from the TypeScript object, so the spread `{...pending,
...updateData}` is per-field "take the new value when present").  The
`metadata` object is an association list; the empty list models an absent
`metadata` key (the source deletes the key when the merged object is
empty).  Numeric field values are modelled as integers — the merge
semantics never inspects them. -/

/-- `DeviceStateUpdate` from `lib/types.ts`, restricted to the fields
`processStateUpdate`/`enqueueDeviceUpdate` write. -/
structure DeviceStateUpdate where
  switch : Option Bool := none
  dimmvalue : Option Int := none
  power : Option Int := none
  curstate : Option Int := none
  shadsClosed : Option Int := none
  shSafety : Option Int := none
  setpoint : Option Int := none
  operationMode : Option Int := none
  tempState : Option Int := none
  metadata : List (String × Int) := []
deriving DecidableEq, Repr

/-- The empty update `{}`. -/
def emptyUpdate : DeviceStateUpdate := {}

/-- `Object.keys(u).length === 0`: every optional field absent and no
`metadata` key. -/
def DeviceStateUpdate.isEmpty (u : DeviceStateUpdate) : Prop :=
  u = emptyUpdate

instance (u : DeviceStateUpdate) : Decidable u.isEmpty := by
  unfold DeviceStateUpdate.isEmpty; infer_instance

/-- JavaScript object spread `{...old, ...new}` on the flat `metadata`
object: keys of `old` keep their position, values overridden by `new` where
present; keys only in `new` are appended. -/
def spreadMerge (old new : List (String × Int)) : List (String × Int) :=
  (old.map fun kv =>
    match new.find? (fun kv2 => kv2.1 == kv.1) with
    | some kv2 => (kv.1, kv2.2)
    | none => kv) ++
  new.filter fun kv2 => !(old.any fun kv => kv.1 == kv2.1)

/-- The merge performed by `enqueueDeviceUpdate`:
`{ ...pending, ...updateData, metadata: {...pending.metadata,
...updateData.metadata} }` (with an empty merged `metadata` deleted, which
the `List` model represents by `[]`). -/
def mergeUpdate (pending upd : DeviceStateUpdate) : DeviceStateUpdate :=
  { switch := upd.switch.orElse fun _ => pending.switch
    dimmvalue := upd.dimmvalue.orElse fun _ => pending.dimmvalue
    power := upd.power.orElse fun _ => pending.power
    curstate := upd.curstate.orElse fun _ => pending.curstate
    shadsClosed := upd.shadsClosed.orElse fun _ => pending.shadsClosed
    shSafety := upd.shSafety.orElse fun _ => pending.shSafety
    setpoint := upd.setpoint.orElse fun _ => pending.setpoint
    operationMode := upd.operationMode.orElse fun _ => pending.operationMode
    tempState := upd.tempState.orElse fun _ => pending.tempState
    metadata := spreadMerge pending.metadata upd.metadata }

/-- Coalescing state for one device id: the `pendingDeviceUpdates` entry,
whether a `flushTimers` entry exists, and the listener invocations
dispatched so far. -/
structure CoalesceState where
  pending : Option DeviceStateUpdate
  timerArmed : Bool
  invocations : List DeviceStateUpdate
deriving Repr

/-- State before any update arrives for the device. -/
def initialCoalesceState : CoalesceState :=
  { pending := none, timerArmed := false, invocations := [] }

/-- `MessageHandler.enqueueDeviceUpdate(deviceId, updateData)`: empty
updates are dropped; otherwise the update is merged into the pending entry
and a flush timer is armed unless one is already running. -/
def enqueueDeviceUpdate (s : CoalesceState) (upd : DeviceStateUpdate) :
    CoalesceState :=
  if upd.isEmpty then s
  else
    let pending := s.pending.getD emptyUpdate
    let merged := mergeUpdate pending upd
    { s with pending := some merged, timerArmed := true }

/-- The flush timer callback: removes the timer, takes the latest pending
entry, and — when one exists — dispatches it through
`deviceStateManager.triggerListeners` exactly once. -/
def flushTimerFires (s : CoalesceState) : CoalesceState :=
  match s.pending with
  | some latest =>
      { pending := none, timerArmed := false,
        invocations := s.invocations ++ [latest] }
  | none => { s with timerArmed := false }

/-- The update whose fields are the last value seen for each field across
`us` (the spec's "per-field last-value-wins merge"), with metadata objects
spread-merged left to right. -/
def coalescedUpdate (us : List DeviceStateUpdate) : DeviceStateUpdate :=
  us.foldl mergeUpdate emptyUpdate

/-- The last value carried for one field across a window of updates. -/
def lastFieldValue {α : Type} (us : List DeviceStateUpdate)
    (f : DeviceStateUpdate → Option α) : Option α :=
  (us.filterMap f).getLast?

/-! ## AES-CBC framing (claim C3) — `Encryption.ts`

`encryptMessage` and `decryptMessage`.  Buffers are lists of byte values.
The AES-256 block permutation (Node's `crypto.createCipheriv('aes-256-cbc')`
with auto-padding disabled) is split into the CBC chaining — implemented
here — and the keyed 16-byte block permutation, abstracted as a pair of
functions `E`/`D`; the UTF-8 codec is the identity on the byte
representation; Base64 is Node's `Buffer` codec, implemented concretely
below (Node's decoder skips bytes outside the Base64 alphabet, which is how
the trailing EOT terminator and the `=` padding disappear). -/

/-- `PROTOCOL_CONFIG.ENCRYPTION.BLOCK_SIZE`. -/
def BLOCK_SIZE : Nat := 16

/-- Zero padding from `encryptMessage`:
`paddingLength = blockSize - (payloadBuffer.length % blockSize)` — always
in `1..16`, so a block-aligned payload still gains a full zero block. -/
def padZero (payload : List Nat) : List Nat :=
  payload ++ List.replicate (BLOCK_SIZE - payload.length % BLOCK_SIZE) 0

/-- Padding removal from `decryptMessage`: drop trailing zero bytes
(`while (end > 0 && decrypted[end-1] === 0) end--`). -/
def stripTrailingZeros (bs : List Nat) : List Nat :=
  (bs.reverse.dropWhile (· == 0)).reverse

/-- Split a buffer into 16-byte cipher blocks (the last block may be short
only on inputs whose length is not a multiple of 16; the compositions in
this file always produce exact multiples). -/
def chunks16 (l : List Nat) : List (List Nat) :=
  if h : l = [] then []
  else l.take 16 :: chunks16 (l.drop 16)
termination_by l.length
decreasing_by
  simp only [List.length_drop]
  have hl : l.length ≠ 0 := by simpa [List.length_eq_zero] using h
  omega

/-- Bytewise XOR of two equal-length buffers. -/
def xorBytes (a b : List Nat) : List Nat := List.zipWith (· ^^^ ·) a b

/-- CBC encryption: each plaintext block is XORed with the previous
ciphertext block (the IV for the first) before the block permutation `E`. -/
def cbcEncrypt (E : List Nat → List Nat) (iv : List Nat) :
    List (List Nat) → List (List Nat)
  | [] => []
  | b :: rest =>
      let c := E (xorBytes iv b)
      c :: cbcEncrypt E c rest

/-- CBC decryption with the inverse block permutation `D`. -/
def cbcDecrypt (D : List Nat → List Nat) (iv : List Nat) :
    List (List Nat) → List (List Nat)
  | [] => []
  | c :: rest => xorBytes iv (D c) :: cbcDecrypt D c rest

/-- The Base64 alphabet as byte values:
`A..Z`, `a..z`, `0..9`, `+`, `/`. -/
def base64Chars : List Nat :=
  (List.range 26).map (· + 65) ++ (List.range 26).map (· + 97) ++
    (List.range 10).map (· + 48) ++ [43, 47]

/-- Byte value of the Base64 digit for a 6-bit value. -/
def b64Char (v : Nat) : Nat := base64Chars.getD v 0

/-- Six-bit value of a Base64 digit byte; `none` for bytes outside the
alphabet (such as `=` and the EOT terminator). -/
def b64Value? (c : Nat) : Option Nat :=
  base64Chars.findIdx? (fun x => x = c)

/-- Base64 encoding of a byte buffer (Node `buf.toString('base64')`),
including `=` padding for trailing groups of one or two bytes. -/
def base64Encode : List Nat → List Nat
  | b1 :: b2 :: b3 :: rest =>
      b64Char (b1 / 4) :: b64Char (b1 % 4 * 16 + b2 / 16) ::
        b64Char (b2 % 16 * 4 + b3 / 64) :: b64Char (b3 % 64) ::
        base64Encode rest
  | [b1, b2] =>
      [b64Char (b1 / 4), b64Char (b1 % 4 * 16 + b2 / 16),
        b64Char (b2 % 16 * 4), 61]
  | [b1] => [b64Char (b1 / 4), b64Char (b1 % 4 * 16), 61, 61]
  | [] => []

/-- Reassemble bytes from a stream of 6-bit values (groups of four give
three bytes; a trailing group of three gives two, of two gives one, and a
single leftover digit gives none — Node's semantics). -/
def base64DecodeCore : List Nat → List Nat
  | a :: b :: c :: d :: rest =>
      (a * 4 + b / 16) :: (b % 16 * 16 + c / 4) :: (c % 4 * 64 + d) ::
        base64DecodeCore rest
  | [a, b, c] => [a * 4 + b / 16, b % 16 * 16 + c / 4]
  | [a, b] => [a * 4 + b / 16]
  | _ => []

/-- Base64 decoding of a byte string (Node `Buffer.from(s, 'base64')`):
bytes outside the alphabet are skipped, then 6-bit groups are
reassembled. -/
def base64Decode (s : List Nat) : List Nat :=
  base64DecodeCore (s.filterMap b64Value?)

/-- `Encryption.encryptMessage(payload, key, iv)`: zero-pad the UTF-8
payload, CBC-encrypt with auto-padding disabled, Base64-encode, and append
the EOT terminator `\u0004`. -/
def encryptMessage (E : List Nat → List Nat) (iv : List Nat)
    (payload : List Nat) : List Nat :=
  base64Encode (cbcEncrypt E iv (chunks16 (padZero payload))).flatten ++ [4]

/-- `Encryption.decryptMessage(encryptedBase64, key, iv)`: Base64-decode,
CBC-decrypt with auto-padding disabled, and strip trailing zero bytes. -/
def decryptMessage (D : List Nat → List Nat) (iv : List Nat)
    (encrypted : List Nat) : List Nat :=
  stripTrailingZeros (cbcDecrypt D iv (chunks16 (base64Decode encrypted))).flatten

/-! # Theorems -/

/-! ## Claim C2 — message counter -/

lemma cm_mcAfter_eq (n : Nat) : ConnectionManager.mcAfter n = n := by
  induction n with
  | zero => rfl
  | succ n ih => simp [ConnectionManager.mcAfter, ConnectionManager.nextMc, ih]

lemma cm_mcValue_eq (n : Nat) : ConnectionManager.mcValue n = n + 1 := by
  simp [ConnectionManager.mcValue, ConnectionManager.nextMc, cm_mcAfter_eq]

lemma bridgeTs_mcAfter_eq (n : Nat) :
    BridgeTs.mcAfter n = n % 65535 + 1 := by
  induction n with
  | zero => rfl
  | succ n ih =>
      show (BridgeTs.nextMc (BridgeTs.mcAfter n)).1 = (n + 1) % 65535 + 1
      rw [ih]
      simp only [BridgeTs.nextMc]
      split_ifs <;> omega

lemma bridgeTs_mcValue_eq (n : Nat) :
    BridgeTs.mcValue n = n % 65535 + 1 := by
  simp [BridgeTs.mcValue, BridgeTs.nextMc, bridgeTs_mcAfter_eq]

/-- Claim C2, counterexample: the claim fails for `ConnectionManager.nextMc`
(one of its two cited sources).  That generator never wraps: its 65536th
call within a session returns 65536, exceeding 65535. -/
theorem mc_counter_counterexample :
    ConnectionManager.mcValue 65535 = 65536 ∧
      65535 < ConnectionManager.mcValue 65535 := by
  refine ⟨?_, ?_⟩ <;> simp [cm_mcValue_eq]

/-- Claim C2 (amended): the `Bridge.ts` `nextMc` yields 1, 2, …, 65535 and
then wraps back to 1 — its `n`-th value (0-indexed) is `n % 65535 + 1`,
always within `[1, 65535]`, so it never skips and never repeats before
wrapping; the `ConnectionManager` `nextMc`, by contrast, yields 1, 2, 3, …
without bound. -/
theorem mc_counter_amended :
    (∀ n : Nat, BridgeTs.mcValue n = n % 65535 + 1) ∧
    (∀ n : Nat, 1 ≤ BridgeTs.mcValue n ∧ BridgeTs.mcValue n ≤ 65535) ∧
    (∀ n : Nat, ConnectionManager.mcValue n = n + 1) := by
  refine ⟨fun n => bridgeTs_mcValue_eq n, fun n => ?_,
    fun n => cm_mcValue_eq n⟩
  rw [bridgeTs_mcValue_eq]
  have := Nat.mod_lt n (y := 65535) (by omega)
  omega

/-! ## Claim C9 — reconnect backoff -/

/-- Claim C9: for every attempt number `a ≥ 1` the scheduled reconnect
delay is `min(base · 2^(a−1), 60000)`, where the base is 500 ms when the
last close code was 1006 and the configured 5000 ms otherwise; and after a
fully successful reconnect resets the attempt counter to zero, the next
`scheduleReconnect` computes exactly the base delay again. -/
theorem reconnect_delay_ok (code a : Nat) (h : 1 ≤ a) :
    reconnectDelay code a =
        min (reconnectBaseDelay code * 2 ^ (a - 1)) 60000 ∧
    reconnectBaseDelay 1006 = 500 ∧
    (∀ c, c ≠ 1006 → reconnectBaseDelay c = 5000) ∧
    (scheduleReconnect code 0).2 = reconnectBaseDelay code := by
  refine ⟨rfl, rfl,
    fun c hc => by simp [reconnectBaseDelay, ABNORMAL_CLOSURE, RECONNECT_DELAY, hc], ?_⟩
  have hbase : reconnectBaseDelay code = 500 ∨ reconnectBaseDelay code = 5000 := by
    unfold reconnectBaseDelay
    split_ifs <;> simp [RECONNECT_DELAY]
  show min (reconnectBaseDelay code * 2 ^ (1 - 1)) 60000 = reconnectBaseDelay code
  rcases hbase with hb | hb <;> simp [hb]

/-- Claim C9 witness: attempt 3 after a 1006 close is scheduled after
`min(500 · 2², 60000) = 2000` ms. -/
theorem reconnect_delay_witness :
    (1 ≤ 3 ∧ reconnectDelay 1006 3 =
        min (reconnectBaseDelay 1006 * 2 ^ (3 - 1)) 60000) ∧
      reconnectDelay 1006 3 = 2000 := by
  exact ⟨⟨by omega, (reconnect_delay_ok 1006 3 (by omega)).1⟩, by decide⟩

/-! ## Claim C10 — ACK replies for counted inbound messages -/

/-- Claim C10: every inbound post-handshake message carrying a non-negative
`mc` is answered by exactly one ACK frame whose `ref` equals that `mc`,
whatever its type; the `Bridge.ts` variant behaves identically except that
it sends no ACK for inbound ACK-type messages. -/
theorem ack_reply_ok (m : InboundMsg) (mcv : Int) (hmc : m.mc = some mcv)
    (h0 : 0 ≤ mcv) :
    facadeAckReplies m = [⟨some mcv⟩] ∧
    (m.type_int ≠ MESSAGE_TYPES.ACK → bridgeTsAckReplies m = [⟨some mcv⟩]) ∧
    (m.type_int = MESSAGE_TYPES.ACK → bridgeTsAckReplies m = []) := by
  refine ⟨?_, fun hne => ?_, fun he => ?_⟩
  · simp [facadeAckReplies, hmc, h0]
  · simp [bridgeTsAckReplies, hmc, h0, hne]
  · simp [bridgeTsAckReplies, hmc, he]

/-- Claim C10 witness: a STATE_UPDATE (310) frame with `mc = 7` is ACKed
with `ref = 7` by both handlers (310 is neither an ACK nor special-cased). -/
theorem ack_reply_witness :
    facadeAckReplies ⟨310, some 7, none⟩ = [⟨some 7⟩] ∧
      bridgeTsAckReplies ⟨310, some 7, none⟩ = [⟨some 7⟩] := by
  have h := ack_reply_ok ⟨310, some 7, none⟩ 7 rfl (by omega)
  exact ⟨h.1, h.2.1 (by decide)⟩

/-! ## Claim C8 — dimDevice value mapping -/

/-- Claim C8, counterexample: the modular facade's `dimDevice` does not
delegate `v ≤ 0` to `switchDevice` — at `v = -1` the `0 < v` guard on the
scaling branch leaves `targetVal = -1`, which is not `=== 0`, so a
`DEVICE_DIM` frame with `dimmvalue = 1` (the clamp of −1) is transmitted
instead of a switch-off. -/
theorem dim_device_counterexample :
    facadeDimDevice (-1) = DimCommand.dim 1 ∧
      facadeDimDevice (-1) ≠ DimCommand.switchOff := by
  constructor
  · show facadeDimDevice (-1) = DimCommand.dim 1
    unfold facadeDimDevice
    norm_num [DIM_MIN, DIM_MAX]
  · intro hcontra
    have h1 : facadeDimDevice (-1) = DimCommand.dim 1 := by
      unfold facadeDimDevice; norm_num [DIM_MIN, DIM_MAX]
    rw [h1] at hcontra
    exact DimCommand.noConfusion hcontra

/-- Claim C8 (amended): the `Bridge.ts` `dimDevice` behaves exactly as the
claim states — `v ≤ 0` delegates to `switchDevice(id, false)` with no dim
frame, `0 < v ≤ 1` transmits the clamp to `[1, 99]` of `round(99·v)`,
`v > 1` transmits the clamp of `round(v)`, the transmitted value is always
an integer in `[1, 99]`, and `dimDevice(id, 1/2)` transmits 50.  The
modular facade's `dimDevice` differs: it delegates to `switchDevice` only
when the computed target is exactly 0, transmits `dimmvalue = 1` for every
`v < 0`, and transmits `v > 1` clamped but unrounded. -/
theorem dim_device_amended :
    (∀ v : ℚ, v ≤ 0 → bridgeTsDimDevice v = .switchOff) ∧
    (∀ v : ℚ, 0 < v → v ≤ 1 →
      bridgeTsDimDevice v = .dim ((max 1 (min 99 (jsRound (v * 99))) : ℤ) : ℚ)) ∧
    (∀ v : ℚ, 1 < v →
      bridgeTsDimDevice v = .dim ((max 1 (min 99 (jsRound v)) : ℤ) : ℚ)) ∧
    (∀ v : ℚ, 0 < v → ∃ k : ℤ, bridgeTsDimDevice v = .dim (k : ℚ) ∧
      1 ≤ k ∧ k ≤ 99) ∧
    bridgeTsDimDevice (1 / 2) = .dim 50 ∧
    (∀ v : ℚ, v < 0 → facadeDimDevice v = .dim 1) ∧
    (∀ v : ℚ, 1 < v → v ≤ 99 → facadeDimDevice v = .dim v) := by
  have hpos : ∀ v : ℚ, 0 < v → ¬ v ≤ 0 := fun v hv => not_le.mpr hv
  refine ⟨fun v hv => ?_, fun v hv hv1 => ?_, fun v hv => ?_, fun v hv => ?_,
    ?_, fun v hv => ?_, fun v hv hv99 => ?_⟩
  · simp [bridgeTsDimDevice, hv]
  · simp [bridgeTsDimDevice, hpos v hv, hv1]
  · simp [bridgeTsDimDevice, hpos v (lt_trans one_pos hv), not_le.mpr hv]
  · refine ⟨max 1 (min 99 (if v ≤ 1 then jsRound (v * 99) else jsRound v)), ?_, ?_, ?_⟩
    · simp [bridgeTsDimDevice, hpos v hv]
    · exact le_max_left 1 _
    · have : min 99 (if v ≤ 1 then jsRound (v * 99) else jsRound v) ≤ 99 :=
        min_le_left 99 _
      omega
  · show bridgeTsDimDevice (1 / 2) = .dim 50
    unfold bridgeTsDimDevice jsRound
    norm_num
  · have hne : ¬ (v ≤ 1 ∧ 0 < v) := fun hcon => absurd hv (not_lt.mpr hcon.2.le)
    have hvne : v ≠ 0 := ne_of_lt hv
    simp only [facadeDimDevice, if_neg hne, if_neg hvne]
    have hmin : min (DIM_MAX : ℚ) v = v := by
      apply min_eq_right
      simp only [DIM_MAX]
      norm_num
      linarith
    have hmax : max (DIM_MIN : ℚ) v = (DIM_MIN : ℚ) := by
      apply max_eq_left
      simp only [DIM_MIN]
      norm_num
      linarith
    rw [hmin, hmax]
    norm_num [DIM_MIN]
  · have hne : ¬ (v ≤ 1 ∧ 0 < v) := fun hcon => absurd hv (not_lt.mpr hcon.1)
    have hvne : v ≠ 0 := by positivity
    simp only [facadeDimDevice, if_neg hne, if_neg hvne]
    have hmin : min (DIM_MAX : ℚ) v = v := by
      apply min_eq_right
      simp only [DIM_MAX]
      norm_num
      linarith
    have hmax : max (DIM_MIN : ℚ) v = v := by
      apply max_eq_right
      simp only [DIM_MIN]
      norm_num
      linarith
    rw [hmin, hmax]

/-- Claim C8 witness: concrete evaluations — `bridgeTsDimDevice 0 = switch
off`, `bridgeTsDimDevice (1/2) = dim 50`, `bridgeTsDimDevice (150) =
dim 99`, and `facadeDimDevice (-1/2) = dim 1`. -/
theorem dim_device_witness :
    bridgeTsDimDevice 0 = DimCommand.switchOff ∧
      bridgeTsDimDevice (1 / 2) = DimCommand.dim 50 ∧
      bridgeTsDimDevice 150 = DimCommand.dim 99 ∧
      facadeDimDevice (-(1 / 2)) = DimCommand.dim 1 := by
  refine ⟨dim_device_amended.1 0 le_rfl, dim_device_amended.2.2.2.2.1, ?_, ?_⟩
  · rw [dim_device_amended.2.2.1 150 (by norm_num)]
    norm_num [jsRound]
  · exact dim_device_amended.2.2.2.2.2.1 (-(1 / 2)) (by norm_num)

/-! ## Claim C6 — login retry policy -/

/-- Claim C6, counterexample: after two consecutive no-token login
completions from a fresh connection attempt (`loginAttempts = 0`), both
completions schedule another login — so the third login attempt is
executed, not refused, and no auth-failure is emitted yet. -/
theorem login_retry_counterexample :
    (loginFailOutcomes 2).2 =
        [⟨true, false, false⟩, ⟨true, false, false⟩] ∧
      ((retryLoginOrFail (retryLoginOrFail 0).1).2).schedulesLogin = true := by
  exact ⟨rfl, rfl⟩

/-- Claim C6 (amended): only a *third* consecutive no-token login
completion is refused: the first two completions each schedule another
login attempt, and the third one fails the connection attempt permanently —
`auth_failed` is emitted and the engine disconnects; in general
`retryLoginOrFail` fails permanently exactly when at least two failures
were already recorded, and schedules another login otherwise. -/
theorem login_retry_amended :
    (loginFailOutcomes 3).2 =
        [⟨true, false, false⟩, ⟨true, false, false⟩, ⟨false, true, true⟩] ∧
    (∀ a : Nat, (retryLoginOrFail a).2.emitsAuthFailed = true ↔ 2 ≤ a) ∧
    (∀ a : Nat, (retryLoginOrFail a).2.disconnects = true ↔ 2 ≤ a) ∧
    (∀ a : Nat, (retryLoginOrFail a).2.schedulesLogin = true ↔ a < 2) := by
  refine ⟨rfl, fun a => ?_, fun a => ?_, fun a => ?_⟩ <;>
    · simp only [retryLoginOrFail]
      split_ifs with hgt <;> simp <;> omega

/-! ## Claim C1 — authentication handshake scenario -/

/-- Claim C1: from the idle state, the inbound sequence LOGIN_RESPONSE (32)
with token T1, TOKEN_APPLY_ACK (34), TOKEN_RENEW_RESPONSE (38) with token
T2, TOKEN_APPLY_ACK (34) makes the Authenticator emit TOKEN_APPLY (33) with
T1, TOKEN_RENEW (37) with T1, and TOKEN_APPLY (33) again carrying the
renewed token T2; it then reaches the authenticated state with `isRenewing`
cleared, fires the completion callback exactly once, and the facade's
`onAuthenticated` handler sends REQUEST_DEVICES (240) and REQUEST_ROOMS
(242) (followed by its initial HEARTBEAT (2)); every outbound frame carries
a fresh `nextMc()` value. -/
theorem auth_handshake_ok (env : CryptoEnv) (authKey : String) (mc0 : Nat) :
    facadeProcessEncrypted env (initialAuthState authKey mc0)
      [⟨MESSAGE_TYPES.LOGIN_RESPONSE, some [("token", "T1")]⟩,
        ⟨MESSAGE_TYPES.TOKEN_APPLY_ACK, none⟩,
        ⟨MESSAGE_TYPES.TOKEN_RENEW_RESPONSE, some [("token", "T2")]⟩,
        ⟨MESSAGE_TYPES.TOKEN_APPLY_ACK, none⟩] =
      ({ initialAuthState authKey mc0 with token := some "T2", state := .authenticated, isRenewing := false, mc := mc0 + 6 },
        [⟨MESSAGE_TYPES.TOKEN_APPLY, mc0 + 1, [("token", "T1")]⟩,
          ⟨MESSAGE_TYPES.TOKEN_RENEW, mc0 + 2, [("token", "T1")]⟩,
          ⟨MESSAGE_TYPES.TOKEN_APPLY, mc0 + 3, [("token", "T2")]⟩,
          ⟨MESSAGE_TYPES.REQUEST_DEVICES, mc0 + 4, []⟩,
          ⟨MESSAGE_TYPES.REQUEST_ROOMS, mc0 + 5, []⟩,
          ⟨MESSAGE_TYPES.HEARTBEAT, mc0 + 6, []⟩], 1) := by
  rfl

/-! ## Claims C4 and C5 — sendWithRetry -/

lemma sendWithRetryGo_failures_then_ack (cfg : RetryConfig)
    (rest : List AttemptOutcome) :
    ∀ (fs : List AttemptOutcome) (retries : Nat),
      (∀ o ∈ fs, isFailureOutcome o) →
      retries + fs.length ≤ cfg.maxRetries →
      sendWithRetryGo cfg retries (fs ++ .ack :: rest) =
        some ⟨.resolved true, fs.length + 1, 1⟩
  | [], retries, _, _ => by
      simp [sendWithRetryGo]
  | o :: fs, retries, hf, hle => by
      have ho : isFailureOutcome o := hf o (List.mem_cons_self o fs)
      have hfs : ∀ x ∈ fs, isFailureOutcome x :=
        fun x hx => hf x (List.mem_cons_of_mem o hx)
      have hlt : retries < cfg.maxRetries := by
        simp only [List.length_cons] at hle; omega
      have ih := sendWithRetryGo_failures_then_ack cfg rest fs (retries + 1)
        hfs (by simp only [List.length_cons] at hle; omega)
      rcases ho with rfl | rfl | rfl <;>
        simp [sendWithRetryGo, hlt, ih, Nat.add_comm]

lemma sendWithRetryGo_failures_exhaust (cfg : RetryConfig) :
    ∀ (fs rest : List AttemptOutcome) (retries : Nat),
      (∀ o ∈ fs, isFailureOutcome o) →
      0 < fs.length →
      retries + fs.length = cfg.maxRetries + 1 →
      sendWithRetryGo cfg retries (fs ++ rest) =
        some ⟨.rejected, fs.length, 1⟩
  | [], rest, retries, _, h0, heq => by simp at h0
  | o :: fs, rest, retries, hf, h0, heq => by
      have ho : isFailureOutcome o := hf o (List.mem_cons_self o fs)
      have hfs : ∀ x ∈ fs, isFailureOutcome x :=
        fun x hx => hf x (List.mem_cons_of_mem o hx)
      simp only [List.length_cons] at heq
      rcases Nat.eq_zero_or_pos fs.length with hzero | hpos
      · have hfs0 : fs = [] := List.length_eq_zero.mp hzero
        subst hfs0
        have hnlt : ¬ retries < cfg.maxRetries := by omega
        rcases ho with rfl | rfl | rfl <;> simp [sendWithRetryGo, hnlt]
      · have hlt : retries < cfg.maxRetries := by omega
        have ih := sendWithRetryGo_failures_exhaust cfg fs rest (retries + 1)
          hfs hpos (by omega)
        rcases ho with rfl | rfl | rfl <;>
          simp [sendWithRetryGo, hlt, ih, Nat.sub_add_cancel hpos,
            Nat.succ_pred_eq_of_pos hpos]

/-- Claim C4: with `N ≤ 3` timeouts/NACKs followed by an ACK,
`sendWithRetry` resolves `true` after exactly `N` retries (`N + 1`
`sendEncrypted` calls); once the failures exceed the configured maximum of
3 additional attempts, it rejects after exactly 4 send calls and makes no
further send attempt whatever outcomes would follow. -/
theorem send_with_retry_ok (fs rest : List AttemptOutcome)
    (hf : ∀ o ∈ fs, isFailureOutcome o) :
    (fs.length ≤ 3 →
      sendWithRetry DEFAULT_RETRY_CONFIG (fs ++ .ack :: rest) =
        some ⟨.resolved true, fs.length + 1, 1⟩) ∧
    (fs.length = 4 →
      sendWithRetry DEFAULT_RETRY_CONFIG (fs ++ rest) =
        some ⟨.rejected, 4, 1⟩) := by
  constructor
  · intro hle
    exact sendWithRetryGo_failures_then_ack DEFAULT_RETRY_CONFIG rest fs 0 hf
      (by simpa [DEFAULT_RETRY_CONFIG] using hle)
  · intro h4
    have := sendWithRetryGo_failures_exhaust DEFAULT_RETRY_CONFIG fs rest 0 hf
      (by omega) (by simp [DEFAULT_RETRY_CONFIG, h4])
    rw [h4] at this
    exact this

/-- Claim C4 witness: two timeouts and a NACK followed by an ACK resolve
`true` after exactly 3 retries, and four straight timeouts reject after
exactly 4 sends even though an ACK outcome would have followed. -/
theorem send_with_retry_witness :
    sendWithRetry DEFAULT_RETRY_CONFIG
        [.ackTimeout, .nack, .ackTimeout, .ack] =
      some ⟨.resolved true, 4, 1⟩ ∧
    sendWithRetry DEFAULT_RETRY_CONFIG
        [.ackTimeout, .ackTimeout, .ackTimeout, .ackTimeout, .ack] =
      some ⟨.rejected, 4, 1⟩ := by
  constructor
  · exact (send_with_retry_ok [.ackTimeout, .nack, .ackTimeout] [] (by decide)).1
      (by decide)
  · exact (send_with_retry_ok [.ackTimeout, .ackTimeout, .ackTimeout, .ackTimeout]
      [.ack] (by decide)).2 (by decide)

lemma sendWithRetryGo_releases_once (cfg : RetryConfig) :
    ∀ (outcomes : List AttemptOutcome) (retries : Nat) (t : RetryTrace),
      sendWithRetryGo cfg retries outcomes = some t → t.releases = 1
  | [], _, t, h => by simp [sendWithRetryGo] at h
  | o :: rest, retries, t, h => by
      cases o with
      | connLost =>
          simp only [sendWithRetryGo, Option.some.injEq] at h
          rw [← h]
      | ack =>
          simp only [sendWithRetryGo, Option.some.injEq] at h
          rw [← h]
      | sendFail | nack | ackTimeout =>
          by_cases hlt : retries < cfg.maxRetries
          · simp only [sendWithRetryGo, if_pos hlt, Option.map_eq_some'] at h
            obtain ⟨t2, ht2, heq⟩ := h
            rw [← heq]
            exact sendWithRetryGo_releases_once cfg rest (retries + 1) t2 ht2
          · simp only [sendWithRetryGo, if_neg hlt, Option.some.injEq] at h
            rw [← h]

/-- Claim C5: every terminating `sendWithRetry` run — whether it resolves
on an ACK or rejects through connection loss, send failure, NACKs,
timeouts, or retry exhaustion — releases the concurrency-1 transmit
semaphore permit exactly once. -/
theorem semaphore_released_once (outcomes : List AttemptOutcome)
    (t : RetryTrace)
    (h : sendWithRetry DEFAULT_RETRY_CONFIG outcomes = some t) :
    t.releases = 1 :=
  sendWithRetryGo_releases_once DEFAULT_RETRY_CONFIG outcomes 0 t h

/-- Claim C5 witness: a run that loses the connection mid-retry (one
timeout, then connection loss) terminates rejected with the permit
released exactly once. -/
theorem semaphore_released_once_witness :
    sendWithRetry DEFAULT_RETRY_CONFIG [.ackTimeout, .connLost] =
        some ⟨.rejected, 1, 1⟩ ∧
      (⟨.rejected, 1, 1⟩ : RetryTrace).releases = 1 := by
  refine ⟨by decide, ?_⟩
  exact semaphore_released_once [.ackTimeout, .connLost] ⟨.rejected, 1, 1⟩
    (by decide)

/-! ## Claim C7 — update coalescing -/

lemma string_beq_comm (x y : String) : (x == y) = (y == x) := by
  rcases hxy : (x == y) with _ | _ <;> rcases hyx : (y == x) with _ | _
  · rfl
  · exact absurd (beq_iff_eq.mpr (eq_of_beq hyx).symm) (by simp [hxy])
  · exact absurd (beq_iff_eq.mpr (eq_of_beq hxy).symm) (by simp [hyx])
  · rfl

lemma lookup_eq_find? (k : String) (l : List (String × Int)) :
    l.lookup k = (l.find? fun kv => kv.1 == k).map Prod.snd := by
  induction l with
  | nil => rfl
  | cons kv l ih =>
      obtain ⟨b, v⟩ := kv
      rcases hkb : (b == k) with _ | _ <;>
        simp [List.lookup, List.find?, string_beq_comm k b, hkb, ih]

lemma lookup_append (k : String) (l1 l2 : List (String × Int)) :
    (l1 ++ l2).lookup k = ((l1.lookup k).orElse fun _ => l2.lookup k) := by
  induction l1 with
  | nil => rfl
  | cons kv l1 ih =>
      obtain ⟨b, v⟩ := kv
      rcases hkb : (k == b) with _ | _ <;>
        simp [List.lookup, hkb, ih]

lemma lookup_filter_and (k a : String) (hne : (a == k) = false)
    (q : String × Int → Bool) (l : List (String × Int)) :
    (l.filter fun kv => !(a == kv.1) && q kv).lookup k =
      (l.filter q).lookup k := by
  induction l with
  | nil => rfl
  | cons kv l ih =>
      obtain ⟨b, v⟩ := kv
      rcases hab : (a == b) with _ | _
      · rcases hq : q (b, v) with _ | _ <;>
          rcases hkb : (k == b) with _ | _ <;>
            simp [List.filter_cons, hab, hq, List.lookup, hkb, ih]
      · have hb : a = b := eq_of_beq hab
        have hkb : (k == b) = false := by
          subst hb
          rw [string_beq_comm k a]
          rcases hak : (a == k) with _ | _
          · rfl
          · exact absurd hak (by simp [hne])
        rcases hq : q (b, v) with _ | _ <;>
          simp [List.filter_cons, hab, hq, List.lookup, hkb, ih]

lemma lookup_spreadMerge (k : String) (old new : List (String × Int)) :
    (spreadMerge old new).lookup k =
      ((new.lookup k).orElse fun _ => old.lookup k) := by
  induction old with
  | nil =>
      show (new.filter fun kv2 =>
          !(List.any ([] : List (String × Int)) fun kv => kv.1 == kv2.1)).lookup k = _
      simp only [List.any_nil, Bool.not_false, List.filter_true]
      cases new.lookup k <;> rfl
  | cons kv old ih =>
      obtain ⟨a, v0⟩ := kv
      rcases hka : (k == a) with _ | _
      · -- head miss: the head entry and a-keyed filtering are invisible
        have hak : (a == k) = false := by rw [string_beq_comm a k, hka]
        have hpred :
            (fun kv2 : String × Int =>
                !(List.any ((a, v0) :: old) fun kv => kv.1 == kv2.1)) =
              fun kv2 =>
                !(a == kv2.1) && !(List.any old fun kv => kv.1 == kv2.1) := by
          funext kv2
          simp [List.any_cons, Bool.not_or]
        simp only [spreadMerge, List.map_cons, List.cons_append, hpred]
        simp only [spreadMerge, lookup_append] at ih
        cases hf : new.find? (fun kv2 => kv2.1 == a) <;>
          · simp only [hf, List.lookup, hka,
              lookup_filter_and k a hak
                (fun kv2 => !(List.any old fun kv => kv.1 == kv2.1)) new,
              lookup_append]
            rw [ih]
      · -- head hit: k = a
        have hk : k = a := eq_of_beq hka
        subst hk
        cases hf : new.find? (fun kv2 => kv2.1 == k) <;>
          simp [spreadMerge, List.lookup, lookup_append, hka, hf,
            lookup_eq_find?]

lemma mergeUpdate_metadata_lookup (p u : DeviceStateUpdate) (k : String) :
    (mergeUpdate p u).metadata.lookup k =
      ((u.metadata.lookup k).orElse fun _ => p.metadata.lookup k) :=
  lookup_spreadMerge k p.metadata u.metadata

lemma foldl_merge_field {α : Type} (f : DeviceStateUpdate → Option α)
    (hf : ∀ p u, f (mergeUpdate p u) = ((f u).orElse fun _ => f p)) :
    ∀ (us : List DeviceStateUpdate) (e : DeviceStateUpdate),
      f (us.foldl mergeUpdate e) =
        ((us.filterMap f).getLast?).orElse fun _ => f e
  | [], e => by
      show f e = ((List.filterMap f []).getLast?).orElse fun _ => f e
      simp only [List.filterMap_nil, List.getLast?_nil]
      cases f e <;> rfl
  | u :: us, e => by
      have ih := foldl_merge_field f hf us (mergeUpdate e u)
      simp only [List.foldl_cons]
      rw [ih, hf]
      cases hu : f u with
      | none =>
          rw [List.filterMap_cons_none hu]
          cases (us.filterMap f).getLast? <;> rfl
      | some v =>
          rw [List.filterMap_cons_some hu]
          cases hl : us.filterMap f with
          | nil => simp
          | cons w ws =>
              rw [List.getLast?_cons_cons]
              have : (w :: ws).getLast?.isSome := by
                simp [List.getLast?_isSome]
              obtain ⟨z, hz⟩ := Option.isSome_iff_exists.mp this
              rw [hz]
              rfl

lemma foldl_enqueue_spec :
    ∀ (us : List DeviceStateUpdate) (s : CoalesceState),
      (∀ u ∈ us, ¬ u.isEmpty) → us ≠ [] →
      (us.foldl enqueueDeviceUpdate s).pending =
          some (us.foldl mergeUpdate (s.pending.getD emptyUpdate)) ∧
        (us.foldl enqueueDeviceUpdate s).timerArmed = true ∧
        (us.foldl enqueueDeviceUpdate s).invocations = s.invocations
  | [], _, _, hne => absurd rfl hne
  | u :: us, s, hall, _ => by
      have hu : ¬ u.isEmpty := hall u (List.mem_cons_self u us)
      have hs2 : enqueueDeviceUpdate s u =
          { s with
            pending := some (mergeUpdate (s.pending.getD emptyUpdate) u),
            timerArmed := true } := by
        simp [enqueueDeviceUpdate, hu]
      cases us with
      | nil => simp [hs2]
      | cons v vs =>
          have hall2 : ∀ x ∈ v :: vs, ¬ x.isEmpty :=
            fun x hx => hall x (List.mem_cons_of_mem u hx)
          have ih := foldl_enqueue_spec (v :: vs) (enqueueDeviceUpdate s u)
            hall2 (by simp)
          simp only [List.foldl_cons] at ih ⊢
          refine ⟨?_, ih.2.1, ?_⟩
          · rw [ih.1, hs2]
            simp
          · rw [ih.2.2, hs2]

/-- Claim C7: any nonempty burst of (non-empty) raw state updates for one
device within a coalescing window arms a single flush timer and produces
exactly one listener invocation when the window elapses, carrying the
per-field last-value-wins merge of the burst (shown explicitly for the
`switch` and `dimmvalue` fields) and the per-key last-value-wins deep merge
of the `metadata` objects (rather than a replacement); afterwards no update
is left pending. -/
theorem coalescing_ok (us : List DeviceStateUpdate) (hne : us ≠ [])
    (hnon : ∀ u ∈ us, ¬ u.isEmpty) :
    (flushTimerFires (us.foldl enqueueDeviceUpdate initialCoalesceState)).invocations
        = [coalescedUpdate us] ∧
    (us.foldl enqueueDeviceUpdate initialCoalesceState).timerArmed = true ∧
    (flushTimerFires (us.foldl enqueueDeviceUpdate initialCoalesceState)).pending
        = none ∧
    (coalescedUpdate us).switch = lastFieldValue us (fun u => u.switch) ∧
    (coalescedUpdate us).dimmvalue = lastFieldValue us (fun u => u.dimmvalue) ∧
    (∀ k : String, (coalescedUpdate us).metadata.lookup k =
      lastFieldValue us (fun u => u.metadata.lookup k)) := by
  obtain ⟨hp, ht, hi⟩ := foldl_enqueue_spec us initialCoalesceState hnon hne
  have hflush :
      flushTimerFires (us.foldl enqueueDeviceUpdate initialCoalesceState) =
        { pending := none, timerArmed := false,
          invocations :=
            (us.foldl enqueueDeviceUpdate initialCoalesceState).invocations ++
              [us.foldl mergeUpdate emptyUpdate] } := by
    unfold flushTimerFires
    rw [show (us.foldl enqueueDeviceUpdate initialCoalesceState).pending =
        some (us.foldl mergeUpdate emptyUpdate) from hp]
  have hswitch := foldl_merge_field (fun u => u.switch) (fun _ _ => rfl) us
    emptyUpdate
  have hdimm := foldl_merge_field (fun u => u.dimmvalue) (fun _ _ => rfl) us
    emptyUpdate
  refine ⟨?_, ht, ?_, ?_, ?_, fun k => ?_⟩
  · rw [hflush]
    show (us.foldl enqueueDeviceUpdate initialCoalesceState).invocations ++
        [us.foldl mergeUpdate emptyUpdate] = [coalescedUpdate us]
    rw [hi]
    simp [initialCoalesceState, coalescedUpdate]
  · rw [hflush]
  · rw [show coalescedUpdate us = us.foldl mergeUpdate emptyUpdate from rfl,
      hswitch]
    show _ = (us.filterMap fun u => u.switch).getLast?
    cases (us.filterMap fun u => u.switch).getLast? <;> rfl
  · rw [show coalescedUpdate us = us.foldl mergeUpdate emptyUpdate from rfl,
      hdimm]
    show _ = (us.filterMap fun u => u.dimmvalue).getLast?
    cases (us.filterMap fun u => u.dimmvalue).getLast? <;> rfl
  · have hmeta := foldl_merge_field (fun u => u.metadata.lookup k)
      (fun p u => mergeUpdate_metadata_lookup p u k) us emptyUpdate
    rw [show coalescedUpdate us = us.foldl mergeUpdate emptyUpdate from rfl,
      hmeta]
    show _ = (us.filterMap fun u => u.metadata.lookup k).getLast?
    cases (us.filterMap fun u => u.metadata.lookup k).getLast? <;> rfl

/-- Claim C7 witness: three raw updates for one device — a switch-on, a dim
level with metadata, and a switch-off — produce exactly one listener
invocation carrying `switch = false`, `dimmvalue = 50` and the merged
metadata, not three invocations. -/
theorem coalescing_witness :
    (flushTimerFires
        ([⟨some true, none, none, none, none, none, none, none, none, []⟩,
          ⟨none, some 50, none, none, none, none, none, none, none, [("1222", 21)]⟩,
          ⟨some false, none, none, none, none, none, none, none, none, []⟩].foldl
          enqueueDeviceUpdate initialCoalesceState)).invocations =
      [⟨some false, some 50, none, none, none, none, none, none, none,
        [("1222", 21)]⟩] :=
  (coalescing_ok _ (by decide) (by decide)).1

/-! ## Claim C3 — AES-CBC zero-padding round trip -/

lemma padZero_length (m : List Nat) :
    (padZero m).length = m.length + (16 - m.length % 16) := by
  simp [padZero, BLOCK_SIZE]

lemma padZero_length_dvd (m : List Nat) : 16 ∣ (padZero m).length := by
  rw [padZero_length]
  omega

lemma chunks16_nil : chunks16 [] = [] := by
  rw [chunks16]
  simp

lemma chunks16_cons_eq (l : List Nat) (h : l ≠ []) :
    chunks16 l = l.take 16 :: chunks16 (l.drop 16) := by
  rw [chunks16]
  simp [h]

lemma chunks16_blocks_aux :
    ∀ (n : Nat) (l : List Nat), l.length ≤ n → 16 ∣ l.length →
      ∀ c ∈ chunks16 l, c.length = 16
  | 0, l, hle, _, c, hc => by
      have hnil : l = [] := by
        cases l with
        | nil => rfl
        | cons x xs => simp at hle
      subst hnil
      rw [chunks16_nil] at hc
      simp at hc
  | n + 1, l, hle, hdvd, c, hc => by
      by_cases h : l = []
      · subst h
        rw [chunks16_nil] at hc
        simp at hc
      · have hlen0 : l.length ≠ 0 := by simpa [List.length_eq_zero] using h
        have h16 : 16 ≤ l.length := by omega
        rw [chunks16_cons_eq l h] at hc
        rcases List.mem_cons.mp hc with rfl | hc2
        · simp only [List.length_take]
          omega
        · have hd : (l.drop 16).length ≤ n := by
            rw [List.length_drop]
            omega
          have hdvd2 : 16 ∣ (l.drop 16).length := by
            rw [List.length_drop]
            omega
          exact chunks16_blocks_aux n (l.drop 16) hd hdvd2 c hc2

lemma chunks16_blocks (l : List Nat) (hdvd : 16 ∣ l.length) :
    ∀ c ∈ chunks16 l, c.length = 16 :=
  chunks16_blocks_aux l.length l le_rfl hdvd

lemma flatten_chunks16_aux :
    ∀ (n : Nat) (l : List Nat), l.length ≤ n → (chunks16 l).flatten = l
  | 0, l, hle => by
      have hnil : l = [] := by
        cases l with
        | nil => rfl
        | cons x xs => simp at hle
      subst hnil
      rw [chunks16_nil]
      rfl
  | n + 1, l, hle => by
      by_cases h : l = []
      · subst h
        rw [chunks16_nil]
        rfl
      · have hlen0 : l.length ≠ 0 := by simpa [List.length_eq_zero] using h
        rw [chunks16_cons_eq l h]
        simp only [List.flatten_cons]
        rw [flatten_chunks16_aux n (l.drop 16) (by rw [List.length_drop]; omega)]
        exact List.take_append_drop 16 l

lemma flatten_chunks16 (l : List Nat) : (chunks16 l).flatten = l :=
  flatten_chunks16_aux l.length l le_rfl

lemma chunks16_flatten (bs : List (List Nat)) (hb : ∀ b ∈ bs, b.length = 16) :
    chunks16 bs.flatten = bs := by
  induction bs with
  | nil => exact chunks16_nil
  | cons b bs ih =>
      have hblen : b.length = 16 := hb b (List.mem_cons_self b bs)
      have hne : b ++ bs.flatten ≠ [] := by
        intro hcon
        have := congrArg List.length hcon
        simp [hblen] at this
      simp only [List.flatten_cons]
      rw [chunks16_cons_eq _ hne]
      have htake : (b ++ bs.flatten).take 16 = b := by
        rw [← hblen]
        exact List.take_left b bs.flatten
      have hdrop : (b ++ bs.flatten).drop 16 = bs.flatten := by
        rw [← hblen]
        exact List.drop_left b bs.flatten
      rw [htake, hdrop, ih (fun c hc => hb c (List.mem_cons_of_mem b hc))]

lemma xorBytes_length (a b : List Nat) :
    (xorBytes a b).length = min a.length b.length := by
  simp [xorBytes]

lemma xorBytes_cancel :
    ∀ (iv b : List Nat), iv.length = b.length →
      xorBytes iv (xorBytes iv b) = b
  | [], [], _ => rfl
  | [], _ :: _, h => by simp at h
  | _ :: _, [], h => by simp at h
  | x :: xs, y :: ys, h => by
      simp only [xorBytes, List.zipWith_cons_cons]
      rw [Nat.xor_cancel_left]
      have := xorBytes_cancel xs ys (by simpa using h)
      simp only [xorBytes] at this
      rw [this]

lemma xorBytes_lt :
    ∀ (a b : List Nat), (∀ x ∈ a, x < 256) → (∀ x ∈ b, x < 256) →
      ∀ x ∈ xorBytes a b, x < 256
  | [], _, _, _, x, hx => by simp [xorBytes] at hx
  | _ :: _, [], _, _, x, hx => by simp [xorBytes] at hx
  | y :: ys, z :: zs, ha, hb, x, hx => by
      simp only [xorBytes, List.zipWith_cons_cons, List.mem_cons] at hx
      rcases hx with rfl | hx2
      · have hy : y < 2 ^ 8 := by
          have := ha y (by simp)
          omega
        have hz : z < 2 ^ 8 := by
          have := hb z (by simp)
          omega
        have := Nat.xor_lt_two_pow hy hz
        omega
      · exact xorBytes_lt ys zs (fun u hu => ha u (by simp [hu]))
          (fun u hu => hb u (by simp [hu])) x hx2

lemma cbcEncrypt_props (E : List Nat → List Nat)
    (hElen : ∀ b, b.length = 16 → (E b).length = 16)
    (hE256 : ∀ b, b.length = 16 → (∀ x ∈ b, x < 256) → ∀ x ∈ E b, x < 256) :
    ∀ (bs : List (List Nat)) (iv : List Nat),
      iv.length = 16 → (∀ x ∈ iv, x < 256) →
      (∀ b ∈ bs, b.length = 16) → (∀ b ∈ bs, ∀ x ∈ b, x < 256) →
      ∀ c ∈ cbcEncrypt E iv bs, c.length = 16 ∧ ∀ x ∈ c, x < 256
  | [], _, _, _, _, _, c, hc => by simp [cbcEncrypt] at hc
  | b :: bs, iv, hivlen, hivb, hblen, hbb, c, hc => by
      have hble : b.length = 16 := hblen b (List.mem_cons_self b bs)
      have hxlen : (xorBytes iv b).length = 16 := by
        simp [xorBytes_length, hivlen, hble]
      have hxb : ∀ x ∈ xorBytes iv b, x < 256 :=
        xorBytes_lt iv b hivb (hbb b (List.mem_cons_self b bs))
      have hclen : (E (xorBytes iv b)).length = 16 := hElen _ hxlen
      have hcb : ∀ x ∈ E (xorBytes iv b), x < 256 := hE256 _ hxlen hxb
      simp only [cbcEncrypt, List.mem_cons] at hc
      rcases hc with rfl | hc2
      · exact ⟨hclen, hcb⟩
      · exact cbcEncrypt_props E hElen hE256 bs (E (xorBytes iv b)) hclen hcb
          (fun x hx => hblen x (List.mem_cons_of_mem b hx))
          (fun x hx => hbb x (List.mem_cons_of_mem b hx)) c hc2

lemma cbcDecrypt_cbcEncrypt (E D : List Nat → List Nat)
    (hElen : ∀ b, b.length = 16 → (E b).length = 16)
    (hDE : ∀ b, b.length = 16 → D (E b) = b) :
    ∀ (bs : List (List Nat)) (iv : List Nat), iv.length = 16 →
      (∀ b ∈ bs, b.length = 16) →
      cbcDecrypt D iv (cbcEncrypt E iv bs) = bs
  | [], _, _, _ => rfl
  | b :: bs, iv, hivlen, hblen => by
      have hble : b.length = 16 := hblen b (List.mem_cons_self b bs)
      have hxlen : (xorBytes iv b).length = 16 := by
        simp [xorBytes_length, hivlen, hble]
      simp only [cbcEncrypt, cbcDecrypt]
      rw [hDE _ hxlen, xorBytes_cancel iv b (by rw [hivlen, hble])]
      rw [cbcDecrypt_cbcEncrypt E D hElen hDE bs (E (xorBytes iv b))
        (hElen _ hxlen) (fun x hx => hblen x (List.mem_cons_of_mem b hx))]

lemma b64Value?_b64Char : ∀ v : Nat, v < 64 → b64Value? (b64Char v) = some v := by
  decide

lemma b64Value?_61 : b64Value? 61 = none := by decide

lemma b64Value?_4 : b64Value? 4 = none := by decide

lemma base64_decode_encode :
    ∀ (bs : List Nat), (∀ x ∈ bs, x < 256) →
      base64DecodeCore (List.filterMap b64Value? (base64Encode bs)) = bs
  | [], _ => rfl
  | [b1], h => by
      have h1 : b1 < 256 := h b1 (by simp)
      simp only [base64Encode, List.filterMap_cons,
        b64Value?_b64Char (b1 / 4) (by omega),
        b64Value?_b64Char (b1 % 4 * 16) (by omega),
        b64Value?_61, List.filterMap_nil, base64DecodeCore]
      have : b1 / 4 * 4 + b1 % 4 * 16 / 16 = b1 := by omega
      rw [this]
  | [b1, b2], h => by
      have h1 : b1 < 256 := h b1 (by simp)
      have h2 : b2 < 256 := h b2 (by simp)
      simp only [base64Encode, List.filterMap_cons,
        b64Value?_b64Char (b1 / 4) (by omega),
        b64Value?_b64Char (b1 % 4 * 16 + b2 / 16) (by omega),
        b64Value?_b64Char (b2 % 16 * 4) (by omega),
        b64Value?_61, List.filterMap_nil, base64DecodeCore]
      have e1 : b1 / 4 * 4 + (b1 % 4 * 16 + b2 / 16) / 16 = b1 := by omega
      have e2 : (b1 % 4 * 16 + b2 / 16) % 16 * 16 + b2 % 16 * 4 / 4 = b2 := by
        omega
      rw [e1, e2]
  | b1 :: b2 :: b3 :: rest, h => by
      have h1 : b1 < 256 := h b1 (by simp)
      have h2 : b2 < 256 := h b2 (by simp)
      have h3 : b3 < 256 := h b3 (by simp)
      have ih := base64_decode_encode rest (fun x hx => h x (by simp [hx]))
      simp only [base64Encode, List.filterMap_cons,
        b64Value?_b64Char (b1 / 4) (by omega),
        b64Value?_b64Char (b1 % 4 * 16 + b2 / 16) (by omega),
        b64Value?_b64Char (b2 % 16 * 4 + b3 / 64) (by omega),
        b64Value?_b64Char (b3 % 64) (by omega),
        base64DecodeCore]
      simp only [List.cons.injEq]
      refine ⟨by omega, by omega, by omega, ih⟩

lemma base64_roundtrip (bs : List Nat) (h : ∀ x ∈ bs, x < 256) :
    base64Decode (base64Encode bs ++ [4]) = bs := by
  unfold base64Decode
  rw [List.filterMap_append]
  simp only [List.filterMap_cons, b64Value?_4, List.filterMap_nil,
    List.append_nil]
  exact base64_decode_encode bs h

lemma dropWhile_replicate_zero (k : Nat) (l : List Nat) :
    List.dropWhile (fun x => x == 0) (List.replicate k 0 ++ l) =
      List.dropWhile (fun x => x == 0) l := by
  induction k with
  | zero => rfl
  | succ k ih => simpa [List.replicate_succ, List.dropWhile_cons] using ih

lemma stripTrailingZeros_padZero (m : List Nat) (hlast : m.getLast? ≠ some 0) :
    stripTrailingZeros (padZero m) = m := by
  unfold stripTrailingZeros padZero
  rw [List.reverse_append, List.reverse_replicate, dropWhile_replicate_zero]
  have hm : List.dropWhile (fun x => x == 0) m.reverse = m.reverse := by
    cases hrev : m.reverse with
    | nil => rfl
    | cons y t =>
        have hy : m.getLast? = some y := by
          rw [← List.head?_reverse, hrev]
          rfl
        have hy0 : ¬ ((y == 0) = true) := by
          intro hcon
          exact hlast (by rw [hy, beq_iff_eq.mp hcon])
        rw [List.dropWhile_cons, if_neg hy0]
  rw [hm, List.reverse_reverse]

/-- Claim C3: for every message (given by its UTF-8 bytes, which for a
serialized JSON string never end in a zero byte), every 16-byte IV of byte
values, and every keyed AES-256 block permutation `E` with inverse `D`
(length-preserving and byte-valued on 16-byte blocks),
`decryptMessage (encryptMessage m) = m` — including block-aligned lengths,
where a full extra zero block is appended — and the padded length is always
`byteLength m + (16 − byteLength m % 16)`. -/
theorem crypto_roundtrip_ok (E D : List Nat → List Nat) (iv m : List Nat)
    (hElen : ∀ b, b.length = 16 → (E b).length = 16)
    (hE256 : ∀ b, b.length = 16 → (∀ x ∈ b, x < 256) → ∀ x ∈ E b, x < 256)
    (hDE : ∀ b, b.length = 16 → D (E b) = b)
    (hiv : iv.length = 16) (hivb : ∀ x ∈ iv, x < 256)
    (hm : ∀ x ∈ m, x < 256) (hlast : m.getLast? ≠ some 0) :
    decryptMessage D iv (encryptMessage E iv m) = m ∧
      (padZero m).length = m.length + (16 - m.length % 16) := by
  refine ⟨?_, padZero_length m⟩
  unfold encryptMessage decryptMessage
  have hpadb : ∀ x ∈ padZero m, x < 256 := by
    intro x hx
    unfold padZero at hx
    rcases List.mem_append.mp hx with hx1 | hx2
    · exact hm x hx1
    · have := List.eq_of_mem_replicate hx2
      omega
  have hblen : ∀ c ∈ chunks16 (padZero m), c.length = 16 :=
    chunks16_blocks _ (padZero_length_dvd m)
  have hbbytes : ∀ c ∈ chunks16 (padZero m), ∀ x ∈ c, x < 256 := by
    intro c hc x hx
    apply hpadb
    rw [← flatten_chunks16 (padZero m)]
    exact List.mem_flatten.mpr ⟨c, hc, hx⟩
  have hcipher := cbcEncrypt_props E hElen hE256 (chunks16 (padZero m)) iv
    hiv hivb hblen hbbytes
  have hcflatbytes :
      ∀ x ∈ (cbcEncrypt E iv (chunks16 (padZero m))).flatten, x < 256 := by
    intro x hx
    obtain ⟨c, hc, hxc⟩ := List.mem_flatten.mp hx
    exact (hcipher c hc).2 x hxc
  rw [base64_roundtrip _ hcflatbytes,
    chunks16_flatten _ (fun c hc => (hcipher c hc).1),
    cbcDecrypt_cbcEncrypt E D hElen hDE (chunks16 (padZero m)) iv hiv hblen,
    flatten_chunks16]
  exact stripTrailingZeros_padZero m hlast

/-- Claim C3 witness: with the identity block permutation, the all-zero IV
and the two-byte JSON message `"{}"` (bytes 123, 125 — already shorter than
a block, and the lemma equally covers the aligned case through the padded
length 2 + 14), the round trip returns the original bytes. -/
theorem crypto_roundtrip_witness :
    decryptMessage id (List.replicate 16 0)
        (encryptMessage id (List.replicate 16 0) [123, 125]) = [123, 125] ∧
      (padZero [123, 125]).length = 2 + (16 - 2 % 16) := by
  have h := crypto_roundtrip_ok id id (List.replicate 16 0) [123, 125]
    (fun _ hb => hb) (fun _ _ hx => hx) (fun _ _ => rfl)
    (by decide) (by decide) (by decide) (by decide)
  exact ⟨h.1, h.2⟩

end XComfort
